import Mathlib

/-!
Shallow embedding of the stm32 async I2C slave driver.

Each Lean definition mirrors one item of the Rust source:
`State`, `Notification`, `Control`, `Event`, the error enums (src/lib.rs),
`SendBuffer` (src/send_buffer.rs), `ReceiveBuffer` (src/receive_buffer.rs),
`StateHolder` (src/state_holder.rs), `TxLock` (src/tx_lock.rs), the bridge
operations (src/bridge.rs) and the two interrupt handlers
(src/interrupts.rs).  Rust panics and `Result`-style failures become
`Option`/`Except`; machine bytes become `Nat` (no arithmetic is performed on
them, they are only stored and moved); the `MaybeUninit` backing arrays
become `List Nat` of the buffer's capacity, with the never-read junk fixed
to `0`.
-/

namespace I2CSlaveModel

/-- `State` enum of src/lib.rs. -/
inductive State
  | Idle
  | TxInitial
  | TxRepeated
  | Rx
  | Nack
deriving DecidableEq, Repr

/-- `Notification` enum of src/lib.rs. -/
inductive Notification
  | Addr (tx gencall : Bool)
  | Sent (sent : Nat)
  | Stop
deriving DecidableEq, Repr

/-- `Control` enum of src/lib.rs. -/
inductive Control
  | Received (size : Nat) (write : Bool)
  | TxEmpty (initial : Bool)
deriving DecidableEq, Repr

/-- `Event` enum of src/lib.rs. -/
inductive Event
  | Notif (n : Notification)
  | Ctrl (c : Control)
deriving DecidableEq, Repr

/-- `I2CError` enum of src/lib.rs. -/
inductive I2CError
  | BusError
  | ArbitrationLoss
  | AcknowledgeFailure
  | Overrun
  | PecError
  | Timeout
  | SmBusAlert
deriving DecidableEq, Repr

/-- `ProtocolError` enum of src/lib.rs. -/
inductive ProtocolError
  | RxneAndTxne
  | AddrDuringTransmission
  | RxneWhileNotReceiving
  | TxeWhileNotTranseiving
  | StopDuringTransmission
  | NackWhileNotTranseiving
deriving DecidableEq, Repr

/-- `Reason` enum of src/lib.rs. -/
inductive Reason
  | I2C (e : I2CError)
  | Protocol (e : ProtocolError)
  | ReceiveBufferFull
deriving DecidableEq, Repr

/-- One entry of the ISR channel: `Result<Event, Error>` of src/bridge.rs
(the optional diagnostic dump inside `Error` is not modelled; only the
`reason` field is). -/
abbrev ChanMsg := Except Reason Event

instance : DecidableEq ChanMsg := fun a b =>
  match a, b with
  | .error x, .error y =>
    decidable_of_iff (x = y) (by simp)
  | .error _, .ok _ => .isFalse (by simp)
  | .ok _, .error _ => .isFalse (by simp)
  | .ok x, .ok y =>
    decidable_of_iff (x = y) (by simp)

/-- Whether a channel message is an `Err`. -/
def ChanMsg.isErr : ChanMsg → Bool
  | .error _ => true
  | .ok _ => false

/-! ## Send buffer (src/send_buffer.rs) -/

/-- `SendBuffer<BUFSIZE>`: backing array, `pos` and `end` indices.
`end` is a Lean keyword, so the field is called `epos`. -/
structure SendBuffer (BUFSIZE : Nat) where
  buf : List Nat
  pos : Nat
  epos : Nat
deriving DecidableEq, Repr

namespace SendBuffer

/-- `SendBuffer::new`: both indices zero, uninitialised storage (junk
modelled as zeros, it is never read before being overwritten). -/
def new (BUFSIZE : Nat) : SendBuffer BUFSIZE :=
  ⟨List.replicate BUFSIZE 0, 0, 0⟩

variable {n : Nat}

/-- `SendBuffer::is_empty`: `end == pos`. -/
def is_empty (sb : SendBuffer n) : Bool := sb.epos == sb.pos

/-- `SendBuffer::bytes_sent`: returns `pos`. -/
def bytes_sent (sb : SendBuffer n) : Nat := sb.pos

/-- `SendBuffer::write`.  The Rust function asserts
`buf.len() <= BUFSIZE` and panics when the buffer is not empty; both
panics are modelled as `none`.  Otherwise it copies
`take_idx = min(len, BUFSIZE)` bytes into the front of the storage, sets
`pos = 0`, `end = take_idx` and returns the unwritten tail. -/
def write (sb : SendBuffer n) (src : List Nat) :
    Option (SendBuffer n × List Nat) :=
  if src.length ≤ n then
    if sb.is_empty then
      let takeIdx := min src.length n
      some (⟨src.take takeIdx ++ sb.buf.drop takeIdx, 0, takeIdx⟩,
            src.drop takeIdx)
    else none
  else none

/-- `SendBuffer::reset`: zero both indices. -/
def reset (sb : SendBuffer n) : SendBuffer n := { sb with pos := 0, epos := 0 }

/-- `Iterator::next` for `SendBuffer`: `None` when empty, otherwise
advance `pos` and yield the byte at the old `pos` (the mutated buffer is
returned alongside the byte). -/
def next (sb : SendBuffer n) : Option (Nat × SendBuffer n) :=
  if sb.is_empty then none
  else some (sb.buf.getD sb.pos 0, { sb with pos := sb.pos + 1 })

/-- Repeatedly call `next` (with explicit fuel) collecting the yielded
bytes and the final buffer state. -/
def drainGo : Nat → SendBuffer n → List Nat × SendBuffer n
  | 0, sb => ([], sb)
  | fuel + 1, sb =>
    match sb.next with
    | none => ([], sb)
    | some (b, sb') =>
      let r := drainGo fuel sb'
      (b :: r.1, r.2)

/-- Iterate `next` to exhaustion: all bytes it yields, in order, plus the
final buffer state. -/
def drain (sb : SendBuffer n) : List Nat × SendBuffer n :=
  drainGo (sb.epos - sb.pos) sb

/-- The structural invariant of the send buffer:
`pos ≤ end ≤ BUFSIZE` with the backing storage of capacity `BUFSIZE`. -/
def inv (sb : SendBuffer n) : Prop :=
  sb.pos ≤ sb.epos ∧ sb.epos ≤ n ∧ sb.buf.length = n

instance (sb : SendBuffer n) : Decidable sb.inv := by
  unfold inv; infer_instance

/-- The bytes in `[pos, end)`: those not yet yielded by `next`. -/
def pending (sb : SendBuffer n) : List Nat :=
  (sb.buf.take sb.epos).drop sb.pos

end SendBuffer

/-! ## Receive buffer (src/receive_buffer.rs) -/

/-- `ReceiveBuffer<BUFSIZE>`: backing array and a `size` index. -/
structure ReceiveBuffer (BUFSIZE : Nat) where
  buf : List Nat
  size : Nat
deriving DecidableEq, Repr

namespace ReceiveBuffer

/-- `ReceiveBuffer::new`: empty, uninitialised storage (junk modelled as
zeros, never read before being overwritten). -/
def new (BUFSIZE : Nat) : ReceiveBuffer BUFSIZE :=
  ⟨List.replicate BUFSIZE 0, 0⟩

variable {n : Nat}

/-- `ReceiveBuffer::write_byte`: `Err(())` (here `none`) when full,
otherwise store the byte at index `size` and increment `size`. -/
def write_byte (rb : ReceiveBuffer n) (byte : Nat) :
    Option (ReceiveBuffer n) :=
  if rb.size = n then none
  else some ⟨rb.buf.set rb.size byte, rb.size + 1⟩

/-- `ReceiveBuffer::get_size`. -/
def get_size (rb : ReceiveBuffer n) : Nat := rb.size

/-- `ReceiveBuffer::read`: if the destination is too small return
`Err(size)`; otherwise copy the first `size` bytes over the front of the
destination and return `Ok(size)` together with the updated destination
(the tail of the destination is untouched). -/
def read (rb : ReceiveBuffer n) (dst : List Nat) :
    Except Nat (List Nat × Nat) :=
  if dst.length < rb.size then .error rb.size
  else .ok (rb.buf.take rb.size ++ dst.drop rb.size, rb.size)

/-- `ReceiveBuffer::reset`: `size = 0`. -/
def reset (rb : ReceiveBuffer n) : ReceiveBuffer n := { rb with size := 0 }

/-- Append a whole sequence of bytes through `write_byte`, failing if any
single append reports a full buffer. -/
def writeAll (rb : ReceiveBuffer n) (bs : List Nat) :
    Option (ReceiveBuffer n) :=
  bs.foldlM write_byte rb

end ReceiveBuffer

/-- `Bridge::read` (src/bridge.rs): perform `ReceiveBuffer::read` and, on
success, reset the buffer.  Returns the read result together with the
buffer afterwards. -/
def bridge_read {n : Nat} (rb : ReceiveBuffer n) (dst : List Nat) :
    Except Nat (List Nat × Nat) × ReceiveBuffer n :=
  match rb.read dst with
  | .ok r => (.ok r, rb.reset)
  | .error e => (.error e, rb)

/-- `I2CSlave::n_read` (src/slave.rs): `read` with an empty destination,
then `unwrap_err()`.  The panic of `unwrap_err` on an `Ok` value is
modelled as `none`. -/
def n_read {n : Nat} (rb : ReceiveBuffer n) : Option (Nat × ReceiveBuffer n) :=
  match bridge_read rb [] with
  | (.error e, rb') => some (e, rb')
  | (.ok _, _) => none

/-! ## State holder (src/state_holder.rs) and bounded histories -/

/-- Push into a `heapless::Deque` of capacity `N`, dropping the oldest
element when full — the pattern used by both the state history and the
events history. -/
def pushBounded (N : Nat) (x : α) (l : List α) : List α :=
  (if l.length = N then l.drop 1 else l) ++ [x]

/-- `StateHolder<HISTORY_SIZE>`: bounded history plus the mirrored
current state. -/
structure StateHolder (N : Nat) where
  history : List State
  state : State
deriving DecidableEq, Repr

namespace StateHolder

/-- `StateHolder::new`: empty history, state `Idle`. -/
def new (N : Nat) : StateHolder N := ⟨[], .Idle⟩

variable {N : Nat}

/-- `StateHolder::set_state`: push into the history, then store. -/
def set_state (sh : StateHolder N) (s : State) : StateHolder N :=
  ⟨pushBounded N s sh.history, s⟩

/-- `StateHolder::get_state`. -/
def get_state (sh : StateHolder N) : State := sh.state

/-- A whole sequence of `set_state` calls. -/
def setAll (sh : StateHolder N) (l : List State) : StateHolder N :=
  l.foldl set_state sh

end StateHolder

/-! ## Tx lock (src/tx_lock.rs) -/

/-- `TxLockType` enum. -/
inductive TxLockType
  | TxOnly
  | TxAndBtf
deriving DecidableEq, Repr

/-- The two CR2 bits the Tx lock manipulates. -/
structure Cr2 where
  itbufen : Bool
  itevten : Bool
deriving DecidableEq, Repr

namespace TxLock

/-- `TxLock::lock`: clear ITBUFEN; ITEVTEN stays set exactly for the
`TxOnly` flavor. -/
def lock (t : TxLockType) (_c : Cr2) : Cr2 :=
  ⟨false, match t with | .TxOnly => true | .TxAndBtf => false⟩

/-- `TxLock::unlock`: set both bits. -/
def unlock (_c : Cr2) : Cr2 := ⟨true, true⟩

end TxLock

/-! ## Hardware registers and the bridge/machine state -/

/-- The SR1 status flags read by the handlers. -/
structure Sr1 where
  txe : Bool
  rxne : Bool
  addr : Bool
  btf : Bool
  stopf : Bool
  af : Bool
  berr : Bool
  arlo : Bool
  ovr : Bool
  pecerr : Bool
  timeout : Bool
  alert : Bool
deriving DecidableEq, Repr

/-- The SR2 flags read on an address match. -/
structure Sr2 where
  tra : Bool
  gencall : Bool
deriving DecidableEq, Repr

/-- The state an ISR invocation can observe and mutate: the bridge
(`Bridge<T, _, TXBUFSIZE, RXBUFSIZE>` of src/bridge.rs with its state
holder at `STATES_HISTORY_SIZE = 5` and events history at
`EVENTS_HISTORY_SIZE = 5`) together with the hardware registers the
handlers touch.  `drIn` is the value the data register yields when read;
`drWrites` records the bytes written to the data register, in order;
`chan` records the messages pushed into the ISR channel, in order. -/
structure Mach (TXBUFSIZE RXBUFSIZE : Nat) where
  holder : StateHolder 5
  evHist : List Event
  sb : SendBuffer TXBUFSIZE
  rb : ReceiveBuffer RXBUFSIZE
  cr2 : Cr2
  pe : Bool
  sr1 : Sr1
  drIn : Nat
  drWrites : List Nat
  chan : List ChanMsg
deriving DecidableEq, Repr

namespace Mach

variable {TX RX : Nat}

/-- `Bridge::get_state`. -/
def get_state (m : Mach TX RX) : State := m.holder.get_state

/-- `Bridge::set_state`. -/
def set_state (m : Mach TX RX) (s : State) : Mach TX RX :=
  { m with holder := m.holder.set_state s }

/-- `Bridge::fail`: disable the peripheral and push an `Err` into the
channel. -/
def fail (m : Mach TX RX) (r : Reason) : Mach TX RX :=
  { m with pe := false, chan := m.chan ++ [.error r] }

/-- `Bridge::notify`: push into the bounded events history, then push an
`Ok` into the channel. -/
def notify (m : Mach TX RX) (e : Event) : Mach TX RX :=
  { m with evHist := pushBounded 5 e m.evHist, chan := m.chan ++ [.ok e] }

/-- `Bridge::lock_tx`. -/
def lock_tx (m : Mach TX RX) (t : TxLockType) : Mach TX RX :=
  { m with cr2 := TxLock.lock t m.cr2 }

/-- `Bridge::reset_txbuf`: remember `bytes_sent`, reset the send buffer,
return the remembered count. -/
def reset_txbuf (m : Mach TX RX) : Mach TX RX × Nat :=
  ({ m with sb := m.sb.reset }, m.sb.bytes_sent)

end Mach

/-! ## Event interrupt handler (src/interrupts.rs, `handle_event_interrupt`)

The Rust handler is a sequence of flag-decoding blocks; a `fail(...)` is
always a `return`, aborting the rest of the invocation.  Each block is
modelled as a function returning `Except (Mach ..) (Mach ..)`:
`.error` is the early return carrying the final machine state,
`.ok` continues to the next block. -/

variable {TX RX : Nat}

/-- The `sr1.addr()` block of `handle_event_interrupt` (lines 38-68). -/
def addrStep (sr1 : Sr1) (sr2 : Sr2) (m : Mach TX RX) :
    Except (Mach TX RX) (Mach TX RX) :=
  if sr1.addr then
    match m.get_state with
    | .Idle | .Rx | .Nack =>
      let st := m.get_state
      let m1 := m.set_state (if sr2.tra then .TxInitial else .Rx)
      let m2 := if st = .Rx then
          m1.notify (.Ctrl (.Received m1.rb.get_size sr2.tra))
        else m1
      .ok (m2.notify (.Notif (.Addr sr2.tra sr2.gencall)))
    | .TxInitial | .TxRepeated =>
      .error (m.fail (.Protocol .AddrDuringTransmission))
  else .ok m

/-- The `sr1.rxne()` block of `handle_event_interrupt` (lines 70-84). -/
def rxneStep (sr1 : Sr1) (m : Mach TX RX) :
    Except (Mach TX RX) (Mach TX RX) :=
  if sr1.rxne then
    match m.get_state with
    | .Idle | .TxInitial | .TxRepeated | .Nack =>
      .error (m.fail (.Protocol .RxneWhileNotReceiving))
    | .Rx =>
      match m.rb.write_byte m.drIn with
      | some rb' => .ok { m with rb := rb' }
      | none => .error (m.fail .ReceiveBufferFull)
  else .ok m

/-- The `sr1.txe()` block of `handle_event_interrupt` (lines 86-113). -/
def txeStep (sr1 : Sr1) (m : Mach TX RX) :
    Except (Mach TX RX) (Mach TX RX) :=
  if sr1.txe then
    match m.get_state with
    | .Idle | .Rx | .Nack =>
      .error (m.fail (.Protocol .TxeWhileNotTranseiving))
    | .TxInitial | .TxRepeated =>
      let initial := m.get_state = State.TxInitial
      if initial ∨ sr1.btf then
        match m.sb.next with
        | some (byte, sb') =>
          let m1 := { m with sb := sb', drWrites := m.drWrites ++ [byte] }
          .ok (if initial then m1.set_state .TxRepeated else m1)
        | none =>
          .ok ((m.lock_tx .TxAndBtf).notify (.Ctrl (.TxEmpty initial)))
      else
        .ok (m.lock_tx .TxOnly)
  else .ok m

/-- The `sr1.stopf()` block of `handle_event_interrupt` (lines 115-136):
set `PE` (the STOPF-clearing write), then dispatch on the state. -/
def stopStep (sr1 : Sr1) (m : Mach TX RX) :
    Except (Mach TX RX) (Mach TX RX) :=
  if sr1.stopf then
    let m0 : Mach TX RX := { m with pe := true }
    match m0.get_state with
    | .TxInitial | .TxRepeated =>
      .error (m0.fail (.Protocol .StopDuringTransmission))
    | .Idle | .Rx | .Nack =>
      let st := m0.get_state
      let m1 := if st = .Rx then
          m0.notify (.Ctrl (.Received m0.rb.get_size false))
        else m0
      .ok (if st ≠ .Idle then
          (m1.set_state .Idle).notify (.Notif .Stop)
        else m1)
  else .ok m

/-- `handle_event_interrupt` (src/interrupts.rs lines 30-137): the
`txe && rxne` guard, then the ADDR, RXNE, TXE and STOPF blocks in order,
each of which may return early. -/
def handle_event_interrupt (sr2 : Sr2) (m : Mach TX RX) : Mach TX RX :=
  let sr1 := m.sr1
  if sr1.txe ∧ sr1.rxne then m.fail (.Protocol .RxneAndTxne)
  else
    match addrStep sr1 sr2 m with
    | .error mf => mf
    | .ok m1 =>
      match rxneStep sr1 m1 with
      | .error mf => mf
      | .ok m2 =>
        match txeStep sr1 m2 with
        | .error mf => mf
        | .ok m3 =>
          match stopStep sr1 m3 with
          | .error mf => mf
          | .ok m4 => m4

/-! ## Error interrupt handler (src/interrupts.rs, `handle_error_interrupt`) -/

/-- The `sr1.af()` block of `handle_error_interrupt` (lines 143-156):
clear AF; from a transmitting state go to `Nack`, reset the send buffer
and emit `Sent`; otherwise fail (which returns from the handler). -/
def afStep (sr1 : Sr1) (m : Mach TX RX) :
    Except (Mach TX RX) (Mach TX RX) :=
  if sr1.af then
    let m0 : Mach TX RX := { m with sr1 := { m.sr1 with af := false } }
    match m0.get_state with
    | .TxInitial | .TxRepeated =>
      let m1 := m0.set_state .Nack
      let r := m1.reset_txbuf
      .ok (r.1.notify (.Notif (.Sent r.2)))
    | .Idle | .Rx | .Nack =>
      .error (m0.fail (.Protocol .NackWhileNotTranseiving))
  else .ok m

/-- One arm of the `handle_errors!` macro expansion: if the snapshot flag
is set, clear the hardware flag (via `clr`) and, when an error variant is
attached, push it into the channel.  The macro does NOT return early. -/
def errFlagStep (flag : Bool) (clr : Sr1 → Sr1) (err : Option I2CError)
    (m : Mach TX RX) : Mach TX RX :=
  if flag then
    let m1 : Mach TX RX := { m with sr1 := clr m.sr1 }
    match err with
    | some e => m1.fail (.I2C e)
    | none => m1
  else m

/-- `handle_error_interrupt` (src/interrupts.rs lines 139-193): the AF
block (whose failure returns early), then the expanded `handle_errors!`
chain for `berr` (cleared silently), `arlo`, `ovr`, `pecerr`, `timeout`
and `alert`, each decoded from the SR1 snapshot taken on entry. -/
def handle_error_interrupt (m : Mach TX RX) : Mach TX RX :=
  let sr1 := m.sr1
  match afStep sr1 m with
  | .error mf => mf
  | .ok m1 =>
    let m2 := errFlagStep sr1.berr (fun s => { s with berr := false }) none m1
    let m3 := errFlagStep sr1.arlo (fun s => { s with arlo := false })
      (some .ArbitrationLoss) m2
    let m4 := errFlagStep sr1.ovr (fun s => { s with ovr := false })
      (some .Overrun) m3
    let m5 := errFlagStep sr1.pecerr (fun s => { s with pecerr := false })
      (some .PecError) m4
    let m6 := errFlagStep sr1.timeout (fun s => { s with timeout := false })
      (some .Timeout) m5
    errFlagStep sr1.alert (fun s => { s with alert := false })
      (some .SmBusAlert) m6

/-- Number of `Err` messages in a channel trace. -/
def errCount (l : List ChanMsg) : Nat := l.countP (fun c => c.isErr)

/-- SR1 with every flag clear. -/
def sr1Clear : Sr1 :=
  ⟨false, false, false, false, false, false, false, false, false, false,
   false, false⟩

/-- A machine in its reset configuration (as built by `Bridge::new` and
the init sequence of src/slave.rs), with a given SR1 snapshot and current
state. -/
def baseMach (TX RX : Nat) (s1 : Sr1) (st : State) : Mach TX RX :=
  { holder := ⟨[], st⟩
    evHist := []
    sb := SendBuffer.new TX
    rb := ReceiveBuffer.new RX
    cr2 := ⟨true, true⟩
    pe := true
    sr1 := s1
    drIn := 0
    drWrites := []
    chan := [] }

/-! ## Lemmas about the send buffer -/

namespace SendBuffer

variable {n : Nat}

theorem is_empty_iff (sb : SendBuffer n) : sb.is_empty = true ↔ sb.pos = sb.epos := by
  unfold is_empty
  simp only [beq_iff_eq]
  omega

theorem pending_nil_of_eq (sb : SendBuffer n) (h : sb.pos = sb.epos) :
    sb.pending = [] := by
  unfold pending
  apply List.drop_eq_nil_of_le
  calc (sb.buf.take sb.epos).length ≤ sb.epos := by
        simp
    _ ≤ sb.pos := Nat.le_of_eq h.symm

theorem pending_cons (sb : SendBuffer n) (hinv : sb.inv)
    (hlt : sb.pos < sb.epos) :
    sb.pending =
      sb.buf.getD sb.pos 0 ::
        ({ sb with pos := sb.pos + 1 } : SendBuffer n).pending := by
  obtain ⟨h1, h2, h3⟩ := hinv
  have hp : sb.pos < (sb.buf.take sb.epos).length := by
    rw [List.length_take]; omega
  have hb : sb.pos < sb.buf.length := by omega
  unfold pending
  rw [List.drop_eq_getElem_cons hp]
  congr 1
  rw [List.getElem_take]
  rw [List.getD_eq_getElem?_getD, List.getElem?_eq_getElem hb]
  rfl

theorem next_eq_none_iff (sb : SendBuffer n) :
    sb.next = none ↔ sb.pos = sb.epos := by
  unfold next
  constructor
  · intro h
    by_cases he : sb.is_empty = true
    · exact (is_empty_iff sb).mp he
    · simp [he] at h
  · intro h
    simp [(is_empty_iff sb).mpr h]

theorem next_some (sb : SendBuffer n) (h : ¬ sb.pos = sb.epos) :
    sb.next = some (sb.buf.getD sb.pos 0,
      { sb with pos := sb.pos + 1 }) := by
  unfold next
  have : sb.is_empty = false := by
    cases hb : sb.is_empty
    · rfl
    · exact absurd ((is_empty_iff sb).mp hb) h
  simp [this]

theorem drainGo_spec : ∀ (fuel : Nat) (sb : SendBuffer n), sb.inv →
    sb.epos - sb.pos ≤ fuel →
    drainGo fuel sb = (sb.pending, { sb with pos := sb.epos }) := by
  intro fuel
  induction fuel with
  | zero =>
    intro sb hinv hf
    have hpe : sb.pos = sb.epos := by
      obtain ⟨h1, _, _⟩ := hinv; omega
    rw [drainGo, pending_nil_of_eq sb hpe]
    cases sb
    simp_all
  | succ f ih =>
    intro sb hinv hf
    by_cases hpe : sb.pos = sb.epos
    · rw [drainGo, (next_eq_none_iff sb).mpr hpe, pending_nil_of_eq sb hpe]
      cases sb
      simp_all
    · have hlt : sb.pos < sb.epos := by
        obtain ⟨h1, _, _⟩ := hinv; omega
      rw [drainGo, next_some sb hpe]
      have hinv' : ({ sb with pos := sb.pos + 1 } : SendBuffer n).inv := by
        obtain ⟨h1, h2, h3⟩ := hinv
        refine ⟨?_, h2, h3⟩
        show sb.pos + 1 ≤ sb.epos
        omega
      dsimp only
      rw [ih _ hinv' (by change sb.epos - (sb.pos + 1) ≤ f; omega)]
      rw [pending_cons sb hinv hlt]

theorem drain_spec (sb : SendBuffer n) (hinv : sb.inv) :
    sb.drain = (sb.pending, { sb with pos := sb.epos }) :=
  drainGo_spec _ sb hinv (Nat.le_refl _)

theorem write_eq_some (sb : SendBuffer n) (src : List Nat)
    (hemp : sb.is_empty = true) (hlen : src.length ≤ n) :
    sb.write src =
      some (⟨src.take (min src.length n) ++ sb.buf.drop (min src.length n), 0,
              min src.length n⟩,
            src.drop (min src.length n)) := by
  unfold write
  rw [if_pos hlen, if_pos hemp]

theorem write_result_spec (sb : SendBuffer n) (src : List Nat)
    (hinv : sb.inv) (hlen : src.length ≤ n) :
    (⟨src.take (min src.length n) ++ sb.buf.drop (min src.length n), 0,
      min src.length n⟩ : SendBuffer n).inv ∧
    (⟨src.take (min src.length n) ++ sb.buf.drop (min src.length n), 0,
      min src.length n⟩ : SendBuffer n).pending = src := by
  obtain ⟨h1, h2, h3⟩ := hinv
  have ht : min src.length n = src.length := Nat.min_eq_left hlen
  have htake : src.take (min src.length n) = src := by
    rw [ht]
    exact List.take_length src
  constructor
  · refine ⟨Nat.zero_le _, Nat.min_le_right _ _, ?_⟩
    show (src.take (min src.length n) ++
      sb.buf.drop (min src.length n)).length = n
    rw [List.length_append, List.length_take, List.length_drop]
    omega
  · show ((src.take (min src.length n) ++
      sb.buf.drop (min src.length n)).take (min src.length n)).drop 0 = src
    have hl : (src.take (min src.length n)).length = min src.length n := by
      rw [List.length_take]
      omega
    rw [List.drop_zero, List.take_left' hl, htake]

end SendBuffer

/-! ## Claims about the send buffer and the Tx lock -/

/-- C9: every send-buffer operation (`new`, `write`, `next`, `reset`)
preserves the invariant `pos ≤ end ≤ BUFSIZE` (with the backing storage
of capacity `BUFSIZE`); the bytes in `[pos, end)` — `pending` — are
exactly the bytes not yet yielded by `next` (`next` pops the head of
`pending`, is exhausted exactly when `pending` is empty, and iterating it
yields `pending` exactly); and `is_empty` holds exactly when
`pos = end`. -/
theorem send_buffer_invariant_preservation (n : Nat) :
    ((SendBuffer.new n).inv ∧ (SendBuffer.new n).pending = []) ∧
    (∀ (sb sb' : SendBuffer n) (src rem : List Nat),
      sb.inv → sb.write src = some (sb', rem) →
      sb'.inv ∧ sb'.pending = src) ∧
    (∀ (sb sb' : SendBuffer n) (b : Nat),
      sb.inv → sb.next = some (b, sb') →
      sb'.inv ∧ sb.pending = b :: sb'.pending) ∧
    (∀ sb : SendBuffer n, sb.inv → (sb.next = none ↔ sb.pending = [])) ∧
    (∀ sb : SendBuffer n, sb.inv → sb.reset.inv ∧ sb.reset.pending = []) ∧
    (∀ sb : SendBuffer n, sb.is_empty = true ↔ sb.pos = sb.epos) ∧
    (∀ sb : SendBuffer n, sb.inv → (sb.drain).1 = sb.pending) := by
  refine ⟨⟨⟨Nat.le_refl 0, Nat.zero_le n, by simp [SendBuffer.new]⟩,
      by simp [SendBuffer.pending, SendBuffer.new]⟩, ?_, ?_, ?_, ?_, ?_, ?_⟩
  · intro sb sb' src rem hinv hw
    have hlen : src.length ≤ n := by
      by_contra hno
      unfold SendBuffer.write at hw
      rw [if_neg hno] at hw
      cases hw
    have hemp : sb.is_empty = true := by
      by_contra hno
      unfold SendBuffer.write at hw
      rw [if_pos hlen, if_neg hno] at hw
      cases hw
    rw [SendBuffer.write_eq_some sb src hemp hlen] at hw
    simp only [Option.some.injEq, Prod.mk.injEq] at hw
    obtain ⟨hsb, -⟩ := hw
    rw [← hsb]
    exact SendBuffer.write_result_spec sb src hinv hlen
  · intro sb sb' b hinv hn
    have hne : ¬ sb.pos = sb.epos := by
      intro he
      rw [(SendBuffer.next_eq_none_iff sb).mpr he] at hn
      cases hn
    rw [SendBuffer.next_some sb hne] at hn
    simp only [Option.some.injEq, Prod.mk.injEq] at hn
    obtain ⟨hb, hsb⟩ := hn
    have hlt : sb.pos < sb.epos := by
      obtain ⟨h1, -, -⟩ := hinv
      omega
    constructor
    · rw [← hsb]
      obtain ⟨h1, h2, h3⟩ := hinv
      refine ⟨?_, h2, h3⟩
      show sb.pos + 1 ≤ sb.epos
      omega
    · rw [← hsb, ← hb]
      exact SendBuffer.pending_cons sb hinv hlt
  · intro sb hinv
    rw [SendBuffer.next_eq_none_iff]
    constructor
    · intro h
      exact SendBuffer.pending_nil_of_eq sb h
    · intro h
      obtain ⟨h1, h2, h3⟩ := hinv
      have hlen := congrArg List.length h
      simp only [SendBuffer.pending, List.length_drop, List.length_take,
        List.length_nil] at hlen
      omega
  · intro sb hinv
    refine ⟨⟨Nat.le_refl 0, Nat.zero_le n, hinv.2.2⟩, ?_⟩
    exact SendBuffer.pending_nil_of_eq _ rfl
  · intro sb
    exact SendBuffer.is_empty_iff sb
  · intro sb hinv
    rw [SendBuffer.drain_spec sb hinv]

/-- Witness for C9: the `next` clause at the concrete buffer
`⟨[7, 8], 0, 2⟩`. -/
theorem send_buffer_invariant_preservation_witness :
    (⟨[7, 8], 1, 2⟩ : SendBuffer 2).inv ∧
    (⟨[7, 8], 0, 2⟩ : SendBuffer 2).pending =
      7 :: (⟨[7, 8], 1, 2⟩ : SendBuffer 2).pending :=
  (send_buffer_invariant_preservation 2).2.2.1 ⟨[7, 8], 0, 2⟩ ⟨[7, 8], 1, 2⟩ 7
    (by decide) (by decide)

/-- C6 counterexample: the claim demands that `write` on an empty buffer
of capacity `TXBUFSIZE = 2` copies `min(|src|, 2) = 2` bytes of
`src = [1, 2, 3]` and returns the unwritten tail `[3]`, i.e. a `some`
result; the code instead hits the
`assert!(buf.len() <= BUFSIZE)` and panics (modelled as `none`). -/
theorem send_write_oversize_cex :
    (SendBuffer.new 2).write [1, 2, 3] = none := by decide

/-- C6 (amended): for every EMPTY send buffer and every `src` with
`|src| ≤ TXBUFSIZE` (oversize inputs panic in the assert), `write src`
copies `min(|src|, TXBUFSIZE)` bytes, returns the tail
`src[min(|src|, TXBUFSIZE)..]`, and iterating `next` afterwards yields
exactly `src[..min(|src|, TXBUFSIZE)]` in order and then `None`. -/
theorem send_write_roundtrip (n : Nat) (sb : SendBuffer n) (src : List Nat)
    (hinv : sb.inv) (hemp : sb.is_empty = true) (hlen : src.length ≤ n) :
    ∃ sb' : SendBuffer n,
      sb.write src = some (sb', src.drop (min src.length n)) ∧
      (sb'.drain).1 = src.take (min src.length n) ∧
      ((sb'.drain).2).next = none := by
  obtain ⟨hinv', hpend⟩ := SendBuffer.write_result_spec sb src hinv hlen
  refine ⟨_, SendBuffer.write_eq_some sb src hemp hlen, ?_, ?_⟩
  · rw [SendBuffer.drain_spec _ hinv', hpend]
    have ht : min src.length n = src.length := Nat.min_eq_left hlen
    rw [ht, List.take_length]
  · rw [SendBuffer.drain_spec _ hinv']
    exact (SendBuffer.next_eq_none_iff _).mpr rfl

/-- Witness for C6 (amended): writing `[7]` into a fresh buffer of
capacity 2. -/
theorem send_write_roundtrip_witness :
    (SendBuffer.new 2).inv ∧ (SendBuffer.new 2).is_empty = true ∧
    ∃ sb' : SendBuffer 2,
      (SendBuffer.new 2).write [7] = some (sb', [7].drop (min [7].length 2)) ∧
      (sb'.drain).1 = [7].take (min [7].length 2) ∧
      ((sb'.drain).2).next = none :=
  ⟨by decide, by decide,
    send_write_roundtrip 2 (SendBuffer.new 2) [7] (by decide) (by decide)
      (by decide)⟩

/-- C8 counterexample: the buffer `⟨[7, 8], 2, 2⟩` — reachable by writing
`[7, 8]` into a fresh buffer of capacity 2 and yielding both bytes via
`next` — is empty (`pos == end`), yet `reset` changes its observable
`bytes_sent()` from 2 to 0, so `reset` on an empty buffer is not a
no-op. -/
theorem reset_empty_not_noop_cex :
    ((SendBuffer.new 2).write [7, 8] = some (⟨[7, 8], 0, 2⟩, [])) ∧
    ((⟨[7, 8], 0, 2⟩ : SendBuffer 2).next = some (7, ⟨[7, 8], 1, 2⟩)) ∧
    ((⟨[7, 8], 1, 2⟩ : SendBuffer 2).next = some (8, ⟨[7, 8], 2, 2⟩)) ∧
    ((⟨[7, 8], 2, 2⟩ : SendBuffer 2).is_empty = true) ∧
    ((⟨[7, 8], 2, 2⟩ : SendBuffer 2).bytes_sent = 2) ∧
    ((⟨[7, 8], 2, 2⟩ : SendBuffer 2).reset.bytes_sent = 0) := by decide

/-- C8 (amended): `unlock_tx` while already unlocked leaves the
control-register bits unchanged; `reset` on an empty send buffer
preserves emptiness, the backing bytes and the (empty) pending contents,
but zeroes `pos`, so `bytes_sent()` changes whenever `pos ≠ 0`; it is a
full no-op exactly when `pos = 0`. -/
theorem unlock_reset_idempotence (n : Nat) :
    (∀ c : Cr2, c.itbufen = true → c.itevten = true → TxLock.unlock c = c) ∧
    (∀ sb : SendBuffer n, sb.is_empty = true →
      sb.reset.is_empty = true ∧ sb.reset.buf = sb.buf ∧
      sb.reset.pending = sb.pending ∧ (sb.pos = 0 → sb.reset = sb)) := by
  constructor
  · intro c h1 h2
    cases c
    simp only [TxLock.unlock]
    simp_all
  · intro sb he
    have hpe := (SendBuffer.is_empty_iff sb).mp he
    refine ⟨(SendBuffer.is_empty_iff _).mpr rfl, rfl, ?_, ?_⟩
    · rw [SendBuffer.pending_nil_of_eq _ rfl, SendBuffer.pending_nil_of_eq sb hpe]
    · intro h0
      cases sb
      simp only [SendBuffer.reset]
      simp_all

/-- Witness for C8 (amended): the unlocked CR2 and the fresh empty
send buffer of capacity 2. -/
theorem unlock_reset_idempotence_witness :
    (TxLock.unlock ⟨true, true⟩ = ⟨true, true⟩) ∧
    ((SendBuffer.new 2).reset.is_empty = true ∧
      (SendBuffer.new 2).reset.buf = (SendBuffer.new 2).buf ∧
      (SendBuffer.new 2).reset.pending = (SendBuffer.new 2).pending ∧
      ((SendBuffer.new 2).pos = 0 → (SendBuffer.new 2).reset = SendBuffer.new 2)) :=
  ⟨(unlock_reset_idempotence 2).1 ⟨true, true⟩ rfl rfl,
    (unlock_reset_idempotence 2).2 (SendBuffer.new 2) (by decide)⟩

/-! ## Lemmas about the receive buffer -/

theorem take_set_succ (l : List Nat) : ∀ (i x : Nat), i < l.length →
    (l.set i x).take (i + 1) = l.take i ++ [x] := by
  induction l with
  | nil =>
    intro i x h
    simp at h
  | cons a t ih =>
    intro i x h
    cases i with
    | zero => simp
    | succ i =>
      show ((a :: t.set i x).take (i + 2)) = (a :: t).take (i + 1) ++ [x]
      rw [List.take_succ_cons, List.take_succ_cons,
        ih i x (by simpa using h)]
      rfl

namespace ReceiveBuffer

variable {n : Nat}

theorem writeAll_spec : ∀ (bs : List Nat) (rb rb' : ReceiveBuffer n),
    rb.size ≤ rb.buf.length → rb.buf.length = n →
    rb.writeAll bs = some rb' →
    rb'.buf.length = n ∧ rb'.size = rb.size + bs.length ∧ rb'.size ≤ n ∧
    rb'.buf.take rb'.size = rb.buf.take rb.size ++ bs := by
  intro bs
  induction bs with
  | nil =>
    intro rb rb' hsz hlen hw
    simp only [writeAll, List.foldlM_nil, Option.pure_def, Option.some.injEq]
      at hw
    subst hw
    simp_all
  | cons b bs ih =>
    intro rb rb' hsz hlen hw
    simp only [writeAll, List.foldlM_cons] at hw
    have hne : ¬ rb.size = n := by
      intro he
      unfold write_byte at hw
      rw [if_pos he] at hw
      cases hw
    have hlt : rb.size < rb.buf.length := by omega
    unfold write_byte at hw
    rw [if_neg hne] at hw
    replace hw : ReceiveBuffer.writeAll
        (⟨rb.buf.set rb.size b, rb.size + 1⟩ : ReceiveBuffer n) bs =
        some rb' := hw
    have := ih ⟨rb.buf.set rb.size b, rb.size + 1⟩ rb'
      (by show rb.size + 1 ≤ (rb.buf.set rb.size b).length; simp; omega)
      (by show (rb.buf.set rb.size b).length = n; simp [hlen]) hw
    obtain ⟨h1, h2, h3, h4⟩ := this
    have h2' : rb'.size = rb.size + 1 + bs.length := h2
    refine ⟨h1, by simp; omega, h3, ?_⟩
    rw [h4]
    show (rb.buf.set rb.size b).take (rb.size + 1) ++ bs =
      rb.buf.take rb.size ++ b :: bs
    rw [take_set_succ rb.buf rb.size b hlt, List.append_assoc]
    rfl

end ReceiveBuffer

/-- C5: for every sequence of bytes successfully appended to a fresh
receive buffer via `write_rxbuf_byte` (i.e. `writeAll`) and every
destination `dst`: the pending size equals the number of appended bytes;
if `|dst| ≥ size`, the bridge's `read` returns `Ok(size)`, the first
`size` bytes of the destination are exactly the appended bytes in append
order (the tail of `dst` untouched), and the buffer is reset to size 0;
if `|dst| < size`, it returns `Err(size)` and the buffer (and, by
construction, the destination) is unmodified. -/
theorem receive_buffer_roundtrip (n : Nat) (bs dst : List Nat)
    (rb : ReceiveBuffer n)
    (h : (ReceiveBuffer.new n).writeAll bs = some rb) :
    rb.size = bs.length ∧
    (bs.length ≤ dst.length →
      bridge_read rb dst =
        (.ok (bs ++ dst.drop bs.length, bs.length), rb.reset)) ∧
    (dst.length < bs.length →
      bridge_read rb dst = (.error bs.length, rb)) := by
  obtain ⟨h1, h2, h3, h4⟩ := ReceiveBuffer.writeAll_spec bs
    (ReceiveBuffer.new n) rb
    (by show (0 : Nat) ≤ (List.replicate n 0).length; simp)
    (by show (List.replicate n (0 : Nat)).length = n; simp) h
  have h2' : rb.size = bs.length := by
    have : rb.size = (ReceiveBuffer.new n).size + bs.length := h2
    simpa [ReceiveBuffer.new] using this
  have h4' : rb.buf.take rb.size = bs := by
    have : rb.buf.take rb.size =
        (ReceiveBuffer.new n).buf.take (ReceiveBuffer.new n).size ++ bs := h4
    simpa [ReceiveBuffer.new] using this
  refine ⟨h2', ?_, ?_⟩
  · intro hd
    unfold bridge_read ReceiveBuffer.read
    rw [if_neg (by omega)]
    dsimp only
    rw [h4', h2']
  · intro hd
    unfold bridge_read ReceiveBuffer.read
    rw [if_pos (by omega)]
    dsimp only
    rw [h2']

/-- Witness for C5: the two bytes `[4, 5]` appended to a fresh buffer of
capacity 3, read back into a destination of length 2. -/
theorem receive_buffer_roundtrip_witness :
    (ReceiveBuffer.new 3).writeAll [4, 5] = some ⟨[4, 5, 0], 2⟩ ∧
    ((⟨[4, 5, 0], 2⟩ : ReceiveBuffer 3).size = [4, 5].length ∧
      ([4, 5].length ≤ ([0, 0] : List Nat).length →
        bridge_read (⟨[4, 5, 0], 2⟩ : ReceiveBuffer 3) [0, 0] =
          (.ok ([4, 5] ++ ([0, 0] : List Nat).drop [4, 5].length,
                [4, 5].length),
           (⟨[4, 5, 0], 2⟩ : ReceiveBuffer 3).reset)) ∧
      (([0, 0] : List Nat).length < [4, 5].length →
        bridge_read (⟨[4, 5, 0], 2⟩ : ReceiveBuffer 3) [0, 0] =
          (.error [4, 5].length, ⟨[4, 5, 0], 2⟩))) :=
  ⟨by decide, receive_buffer_roundtrip 3 [4, 5] [0, 0] ⟨[4, 5, 0], 2⟩
    (by decide)⟩

/-- C10: when the receive buffer is empty, `read` with an empty
destination returns `Ok(0)` rather than `Err`, so `n_read` — which
`unwrap_err`s that result — panics (modelled as `none`); `n_read`
returns the pending byte count (leaving the buffer untouched) exactly
when at least one byte is pending. -/
theorem n_read_behavior (n : Nat) (rb : ReceiveBuffer n) :
    (rb.size = 0 →
      bridge_read rb [] = (.ok ([], 0), rb) ∧ n_read rb = none) ∧
    (0 < rb.size → n_read rb = some (rb.size, rb)) := by
  constructor
  · intro h0
    have hread : bridge_read rb [] = (.ok ([], 0), rb) := by
      unfold bridge_read ReceiveBuffer.read
      rw [if_neg (by simp [h0])]
      obtain ⟨buf, size⟩ := rb
      simp only at h0
      subst h0
      simp [ReceiveBuffer.reset]
    refine ⟨hread, ?_⟩
    unfold n_read
    rw [hread]
  · intro hpos
    unfold n_read bridge_read ReceiveBuffer.read
    rw [if_pos (by simp; omega)]

/-- Witness for C10: the empty fresh buffer (panicking branch) and a
buffer holding one byte (counting branch). -/
theorem n_read_behavior_witness :
    (bridge_read (ReceiveBuffer.new 2) [] = (.ok ([], 0), ReceiveBuffer.new 2) ∧
      n_read (ReceiveBuffer.new 2) = none) ∧
    n_read (⟨[9, 0], 1⟩ : ReceiveBuffer 2) =
      some ((⟨[9, 0], 1⟩ : ReceiveBuffer 2).size, ⟨[9, 0], 1⟩) :=
  ⟨(n_read_behavior 2 (ReceiveBuffer.new 2)).1 rfl,
    (n_read_behavior 2 ⟨[9, 0], 1⟩).2 (by decide)⟩

/-! ## Lemmas about the state holder -/

theorem pushBounded_append {α : Type} (N : Nat) (hN : 0 < N) (x : α)
    (H t : List α) (h : H.length ≤ N) :
    pushBounded N x H ++ t = (H ++ x :: t).drop (H.length + 1 - N) := by
  unfold pushBounded
  by_cases hfull : H.length = N
  · rw [if_pos hfull]
    have hd : (1 : Nat) ≤ H.length := by omega
    rw [List.append_assoc, List.singleton_append,
      ← List.drop_append_of_le_length hd]
    congr 1
    omega
  · rw [if_neg hfull]
    have : H.length + 1 - N = 0 := by omega
    rw [this, List.drop_zero, List.append_assoc, List.singleton_append]

theorem pushBounded_length {α : Type} (N : Nat) (hN : 0 < N) (x : α)
    (H : List α) (h : H.length ≤ N) :
    (pushBounded N x H).length = min (H.length + 1) N := by
  unfold pushBounded
  by_cases hfull : H.length = N
  · rw [if_pos hfull]
    simp
    omega
  · rw [if_neg hfull]
    simp
    omega

namespace StateHolder

theorem setAll_state : ∀ (l : List State) (sh : StateHolder 5),
    (sh.setAll l).state = l.getLastD sh.state := by
  intro l
  induction l with
  | nil =>
    intro sh
    rfl
  | cons x t ih =>
    intro sh
    show ((sh.set_state x).setAll t).state = (x :: t).getLastD sh.state
    rw [ih (sh.set_state x), List.getLastD_cons]
    rfl

theorem setAll_history : ∀ (l : List State) (sh : StateHolder 5),
    sh.history.length ≤ 5 →
    (sh.setAll l).history =
      (sh.history ++ l).drop (sh.history.length + l.length - 5) := by
  intro l
  induction l with
  | nil =>
    intro sh hle
    simp only [setAll, List.foldl_nil, List.append_nil, List.length_nil]
    have h0 : sh.history.length + 0 - 5 = 0 := by omega
    rw [h0, List.drop_zero]
  | cons x t ih =>
    intro sh hle
    show ((sh.set_state x).setAll t).history =
      (sh.history ++ x :: t).drop (sh.history.length + (t.length + 1) - 5)
    have hlen1 : (sh.set_state x).history.length = min (sh.history.length + 1) 5 :=
      pushBounded_length 5 (by omega) x sh.history hle
    rw [ih (sh.set_state x) (by omega)]
    show (pushBounded 5 x sh.history ++ t).drop
        ((sh.set_state x).history.length + t.length - 5) =
      (sh.history ++ x :: t).drop (sh.history.length + (t.length + 1) - 5)
    rw [pushBounded_append 5 (by omega) x sh.history t hle, List.drop_drop]
    congr 1
    omega

end StateHolder

/-- C7: after any nonempty sequence of `set` calls `s₁, …, sₙ` on a
fresh State Holder, `get` returns `sₙ` and the history holds exactly the
last `min(n, 5)` of the `sᵢ`, in the order they were set. -/
theorem state_holder_round (l : List State) (h : l ≠ []) :
    (StateHolder.setAll (StateHolder.new 5) l).get_state = l.getLast h ∧
    (StateHolder.setAll (StateHolder.new 5) l).history =
      l.drop (l.length - 5) := by
  constructor
  · show (StateHolder.setAll (StateHolder.new 5) l).state = l.getLast h
    rw [StateHolder.setAll_state l (StateHolder.new 5)]
    match l, h with
    | a :: t, h =>
      rw [List.getLast_eq_getLastD, List.getLastD_cons]
  · rw [StateHolder.setAll_history l (StateHolder.new 5) (by decide)]
    show (([] : List State) ++ l).drop (0 + l.length - 5) =
      l.drop (l.length - 5)
    rw [List.nil_append, Nat.zero_add]

/-- Witness for C7: a sequence of six `set` calls; `get` returns the
last state and the history keeps the final five. -/
theorem state_holder_round_witness :
    ([State.Idle, State.Rx, State.Idle, State.TxInitial, State.TxRepeated,
        State.Nack] ≠ ([] : List State)) ∧
    ((StateHolder.setAll (StateHolder.new 5)
        [State.Idle, State.Rx, State.Idle, State.TxInitial, State.TxRepeated,
          State.Nack]).get_state =
      [State.Idle, State.Rx, State.Idle, State.TxInitial, State.TxRepeated,
        State.Nack].getLast (by simp) ∧
      (StateHolder.setAll (StateHolder.new 5)
        [State.Idle, State.Rx, State.Idle, State.TxInitial, State.TxRepeated,
          State.Nack]).history =
        [State.Idle, State.Rx, State.Idle, State.TxInitial, State.TxRepeated,
          State.Nack].drop
          ([State.Idle, State.Rx, State.Idle, State.TxInitial,
            State.TxRepeated, State.Nack].length - 5)) :=
  ⟨by simp, state_holder_round _ (by simp)⟩

/-! ## Claims about the event interrupt handler -/

/-- C1: in an event-ISR invocation with ADDR set (and the other event
flags clear, so that the ADDR block's effect is the whole invocation's
effect): from `Idle`, `Rx` or `Nack`, if the previous state was `Rx` the
handler emits `Control(Received{size = rx-buffer size, write = tra})`
before `Notification(Addr{tx = tra, gencall})` (otherwise only the
`Addr` notification), and the new state is `TxInitial` when `tra` is set
and `Rx` otherwise; from `TxInitial` or `TxRepeated` it fails with
`Protocol(AddrDuringTransmission)` and emits no events. -/
theorem addr_flag_decode (TX RX : Nat) (sr2 : Sr2) (m : Mach TX RX)
    (hchan : m.chan = [])
    (haddr : m.sr1.addr = true) (hrxne : m.sr1.rxne = false)
    (htxe : m.sr1.txe = false) (hstop : m.sr1.stopf = false) :
    ((m.get_state = State.Idle ∨ m.get_state = State.Rx ∨
        m.get_state = State.Nack) →
      (handle_event_interrupt sr2 m).chan =
        (if m.get_state = State.Rx
          then [.ok (.Ctrl (.Received m.rb.get_size sr2.tra))] else [])
        ++ [.ok (.Notif (.Addr sr2.tra sr2.gencall))] ∧
      (handle_event_interrupt sr2 m).get_state =
        (if sr2.tra then State.TxInitial else State.Rx)) ∧
    ((m.get_state = State.TxInitial ∨ m.get_state = State.TxRepeated) →
      (handle_event_interrupt sr2 m).chan =
        [.error (.Protocol .AddrDuringTransmission)]) := by
  constructor
  · intro hIRN
    rcases hIRN with h | h | h <;>
    · have h' : m.holder.state = _ := h
      simp [handle_event_interrupt, htxe, hrxne, haddr, hstop, addrStep,
        rxneStep, txeStep, stopStep, h, h', Mach.notify, Mach.set_state,
        Mach.fail, Mach.get_state, StateHolder.set_state,
        StateHolder.get_state, hchan]
  · intro hT
    rcases hT with h | h <;>
    · have h' : m.holder.state = _ := h
      simp [handle_event_interrupt, htxe, hrxne, haddr, addrStep,
        h', Mach.fail, Mach.get_state, StateHolder.get_state, hchan]

/-- Witness for C1: a repeated start (ADDR while in `Rx`, master now
reading) on a small concrete machine. -/
theorem addr_flag_decode_witness :
    ((baseMach 1 1 { sr1Clear with addr := true } State.Rx).get_state =
        State.Idle ∨
      (baseMach 1 1 { sr1Clear with addr := true } State.Rx).get_state =
        State.Rx ∨
      (baseMach 1 1 { sr1Clear with addr := true } State.Rx).get_state =
        State.Nack) ∧
    (handle_event_interrupt ⟨true, false⟩
        (baseMach 1 1 { sr1Clear with addr := true } State.Rx)).chan =
      (if (baseMach 1 1 { sr1Clear with addr := true } State.Rx).get_state =
          State.Rx
        then [.ok (.Ctrl (.Received
          (baseMach 1 1 { sr1Clear with addr := true } State.Rx).rb.get_size
          true))]
        else [])
      ++ [.ok (.Notif (.Addr true false))] ∧
    (handle_event_interrupt ⟨true, false⟩
        (baseMach 1 1 { sr1Clear with addr := true } State.Rx)).get_state =
      (if true then State.TxInitial else State.Rx) :=
  ⟨Or.inr (Or.inl rfl),
    (addr_flag_decode 1 1 ⟨true, false⟩
      (baseMach 1 1 { sr1Clear with addr := true } State.Rx)
      rfl rfl rfl rfl rfl).1 (Or.inr (Or.inl rfl))⟩

/-- C2: in an event-ISR invocation with TXE set (and the other event
flags clear, so that the TXE block's effect is the whole invocation's
effect): from `TxInitial` or `TxRepeated` with `initial := state is
TxInitial`, if `initial` or BTF is set the handler pops the next
send-buffer byte — writing it to the data register and landing in
`TxRepeated` when a byte is present, and otherwise locking TX with
flavor `TxAndBtf` and emitting `Control(TxEmpty{initial})`; if neither
`initial` nor BTF is set it locks TX with flavor `TxOnly` and emits
nothing; from `Idle`, `Rx` or `Nack` it fails with
`Protocol(TxeWhileNotTranseiving)`. -/
theorem txe_flag_decode (TX RX : Nat) (sr2 : Sr2) (m : Mach TX RX)
    (hchan : m.chan = [])
    (htxe : m.sr1.txe = true) (hrxne : m.sr1.rxne = false)
    (haddr : m.sr1.addr = false) (hstop : m.sr1.stopf = false) :
    ((m.get_state = State.TxInitial ∨ m.get_state = State.TxRepeated) →
      ((m.get_state = State.TxInitial ∨ m.sr1.btf = true) →
        (∀ b sb', m.sb.next = some (b, sb') →
          (handle_event_interrupt sr2 m).sb = sb' ∧
          (handle_event_interrupt sr2 m).drWrites = m.drWrites ++ [b] ∧
          (handle_event_interrupt sr2 m).get_state = State.TxRepeated ∧
          (handle_event_interrupt sr2 m).chan = []) ∧
        (m.sb.next = none →
          (handle_event_interrupt sr2 m).cr2 =
            TxLock.lock .TxAndBtf m.cr2 ∧
          (handle_event_interrupt sr2 m).chan =
            [.ok (.Ctrl (.TxEmpty
              (decide (m.get_state = State.TxInitial))))])) ∧
      ((m.get_state = State.TxRepeated ∧ m.sr1.btf = false) →
        (handle_event_interrupt sr2 m).cr2 = TxLock.lock .TxOnly m.cr2 ∧
        (handle_event_interrupt sr2 m).chan = [])) ∧
    ((m.get_state = State.Idle ∨ m.get_state = State.Rx ∨
        m.get_state = State.Nack) →
      (handle_event_interrupt sr2 m).chan =
        [.error (.Protocol .TxeWhileNotTranseiving)]) := by
  constructor
  · intro hT
    refine ⟨?_, ?_⟩
    · intro hib
      constructor
      · intro b sb' hn
        rcases hT with h | h
        · have h' : m.holder.state = State.TxInitial := h
          simp [handle_event_interrupt, htxe, hrxne, haddr, hstop,
            addrStep, rxneStep, txeStep, stopStep, h, h', hn, hchan,
            Mach.notify, Mach.set_state, Mach.fail, Mach.lock_tx,
            Mach.get_state, StateHolder.set_state, StateHolder.get_state]
        · have h' : m.holder.state = State.TxRepeated := h
          have hb : m.sr1.btf = true := by
            rcases hib with hi | hb
            · exact absurd (h.symm.trans hi) (by decide)
            · exact hb
          simp [handle_event_interrupt, htxe, hrxne, haddr, hstop,
            addrStep, rxneStep, txeStep, stopStep, h, h', hb, hn, hchan,
            Mach.notify, Mach.set_state, Mach.fail, Mach.lock_tx,
            Mach.get_state, StateHolder.set_state, StateHolder.get_state]
      · intro hn
        rcases hT with h | h
        · have h' : m.holder.state = State.TxInitial := h
          simp [handle_event_interrupt, htxe, hrxne, haddr, hstop,
            addrStep, rxneStep, txeStep, stopStep, h, h', hn, hchan,
            Mach.notify, Mach.set_state, Mach.fail, Mach.lock_tx,
            Mach.get_state, StateHolder.set_state, StateHolder.get_state]
        · have h' : m.holder.state = State.TxRepeated := h
          have hb : m.sr1.btf = true := by
            rcases hib with hi | hb
            · exact absurd (h.symm.trans hi) (by decide)
            · exact hb
          simp [handle_event_interrupt, htxe, hrxne, haddr, hstop,
            addrStep, rxneStep, txeStep, stopStep, h, h', hb, hn, hchan,
            Mach.notify, Mach.set_state, Mach.fail, Mach.lock_tx,
            Mach.get_state, StateHolder.set_state, StateHolder.get_state]
    · intro hrb
      obtain ⟨h, hb⟩ := hrb
      have h' : m.holder.state = _ := h
      simp [handle_event_interrupt, htxe, hrxne, haddr, hstop,
        addrStep, rxneStep, txeStep, stopStep, h, h', hb, hchan,
        Mach.lock_tx, Mach.get_state, StateHolder.get_state]
  · intro hIRN
    rcases hIRN with h | h | h <;>
    · have h' : m.holder.state = _ := h
      simp [handle_event_interrupt, htxe, hrxne, haddr, addrStep,
        rxneStep, txeStep, h', Mach.fail, Mach.get_state,
        StateHolder.get_state, hchan]

/-- Witness for C2: TXE in state `TxInitial` with an empty send buffer on
a small concrete machine — TX is locked with flavor `TxAndBtf` and
`TxEmpty{initial=true}` is emitted. -/
theorem txe_flag_decode_witness :
    ((baseMach 1 1 { sr1Clear with txe := true } State.TxInitial).get_state =
        State.TxInitial ∨
      (baseMach 1 1 { sr1Clear with txe := true } State.TxInitial).get_state =
        State.TxRepeated) ∧
    ((baseMach 1 1 { sr1Clear with txe := true } State.TxInitial).get_state =
        State.TxInitial ∨
      (baseMach 1 1 { sr1Clear with txe := true } State.TxInitial).sr1.btf =
        true) ∧
    (baseMach 1 1 { sr1Clear with txe := true } State.TxInitial).sb.next =
      none ∧
    (handle_event_interrupt ⟨false, false⟩
        (baseMach 1 1 { sr1Clear with txe := true } State.TxInitial)).cr2 =
      TxLock.lock .TxAndBtf
        (baseMach 1 1 { sr1Clear with txe := true } State.TxInitial).cr2 ∧
    (handle_event_interrupt ⟨false, false⟩
        (baseMach 1 1 { sr1Clear with txe := true } State.TxInitial)).chan =
      [.ok (.Ctrl (.TxEmpty (decide
        ((baseMach 1 1 { sr1Clear with txe := true }
            State.TxInitial).get_state = State.TxInitial))))] :=
  ⟨Or.inl rfl, Or.inl rfl, by decide,
    (((txe_flag_decode 1 1 ⟨false, false⟩
        (baseMach 1 1 { sr1Clear with txe := true } State.TxInitial)
        rfl rfl rfl rfl rfl).1 (Or.inl rfl)).1 (Or.inl rfl)).2 (by decide)⟩

/-! ## Claims about the error interrupt handler -/

/-- C3: in an error-ISR invocation with AF set (and the error-flag chain
`arlo/ovr/pecerr/timeout/alert` clear, so that the AF block's effect is
the whole invocation's effect; `berr` may be set, it is only cleared):
the handler clears AF; from `TxInitial` or `TxRepeated` it transitions
to `Nack`, resets the send buffer and emits `Notification(Sent{sent})`
with `sent` equal to the buffer's `pos` (`bytes_sent`) at the moment of
the reset; from any other state it fails with
`Protocol(NackWhileNotTranseiving)`. -/
theorem af_flag_decode (TX RX : Nat) (m : Mach TX RX)
    (hchan : m.chan = []) (haf : m.sr1.af = true)
    (harlo : m.sr1.arlo = false) (hovr : m.sr1.ovr = false)
    (hpec : m.sr1.pecerr = false) (htime : m.sr1.timeout = false)
    (halert : m.sr1.alert = false) :
    (handle_error_interrupt m).sr1.af = false ∧
    ((m.get_state = State.TxInitial ∨ m.get_state = State.TxRepeated) →
      (handle_error_interrupt m).get_state = State.Nack ∧
      (handle_error_interrupt m).sb = m.sb.reset ∧
      (handle_error_interrupt m).chan =
        [.ok (.Notif (.Sent m.sb.bytes_sent))]) ∧
    ((m.get_state = State.Idle ∨ m.get_state = State.Rx ∨
        m.get_state = State.Nack) →
      (handle_error_interrupt m).chan =
        [.error (.Protocol .NackWhileNotTranseiving)]) := by
  have hstate : ∀ s : State, m.holder.state = s → m.get_state = s :=
    fun s h => h
  refine ⟨?_, ?_, ?_⟩
  · rcases hs : m.holder.state <;>
      rcases hb : m.sr1.berr <;>
      simp [handle_error_interrupt, afStep, errFlagStep, haf, harlo, hovr,
        hpec, htime, halert, hb, hs, Mach.notify, Mach.set_state, Mach.fail,
        Mach.reset_txbuf, Mach.get_state, StateHolder.set_state,
        StateHolder.get_state]
  · intro hT
    rcases hT with h | h <;>
    · have h' : m.holder.state = _ := h
      rcases hb : m.sr1.berr <;>
        simp [handle_error_interrupt, afStep, errFlagStep, haf, harlo, hovr,
          hpec, htime, halert, hb, h', hchan, Mach.notify, Mach.set_state,
          Mach.fail, Mach.reset_txbuf, Mach.get_state, SendBuffer.bytes_sent,
          StateHolder.set_state, StateHolder.get_state]
  · intro hIRN
    rcases hIRN with h | h | h <;>
    · have h' : m.holder.state = _ := h
      simp [handle_error_interrupt, afStep, haf, h', hchan, Mach.fail,
        Mach.get_state, StateHolder.get_state]

/-- Witness for C3: AF in state `TxRepeated` with one byte already sent
(`pos = 1`) on a small concrete machine — `Sent{sent=1}` is emitted. -/
theorem af_flag_decode_witness :
    ((({ baseMach 2 1 { sr1Clear with af := true } State.TxRepeated with
          sb := ⟨[9, 0], 1, 2⟩ } : Mach 2 1).get_state = State.TxInitial ∨
      ({ baseMach 2 1 { sr1Clear with af := true } State.TxRepeated with
          sb := ⟨[9, 0], 1, 2⟩ } : Mach 2 1).get_state = State.TxRepeated)) ∧
    (handle_error_interrupt
        ({ baseMach 2 1 { sr1Clear with af := true } State.TxRepeated with
            sb := ⟨[9, 0], 1, 2⟩ } : Mach 2 1)).sr1.af = false ∧
    (handle_error_interrupt
        ({ baseMach 2 1 { sr1Clear with af := true } State.TxRepeated with
            sb := ⟨[9, 0], 1, 2⟩ } : Mach 2 1)).get_state = State.Nack ∧
    (handle_error_interrupt
        ({ baseMach 2 1 { sr1Clear with af := true } State.TxRepeated with
            sb := ⟨[9, 0], 1, 2⟩ } : Mach 2 1)).sb =
      (⟨[9, 0], 1, 2⟩ : SendBuffer 2).reset ∧
    (handle_error_interrupt
        ({ baseMach 2 1 { sr1Clear with af := true } State.TxRepeated with
            sb := ⟨[9, 0], 1, 2⟩ } : Mach 2 1)).chan =
      [.ok (.Notif (.Sent (⟨[9, 0], 1, 2⟩ : SendBuffer 2).bytes_sent))] :=
  have happ := af_flag_decode 2 1
    ({ baseMach 2 1 { sr1Clear with af := true } State.TxRepeated with
        sb := ⟨[9, 0], 1, 2⟩ } : Mach 2 1) rfl rfl rfl rfl rfl rfl rfl
  have hT := happ.2.1 (Or.inr rfl)
  ⟨Or.inr rfl, happ.1, hT.1, hT.2.1, hT.2.2⟩

/-! ## Channel-shape lemmas for the event handler (claim C4) -/

theorem addrStep_chan_ok (sr1 : Sr1) (sr2 : Sr2) (m m' : Mach TX RX)
    (h : addrStep sr1 sr2 m = .ok m') :
    ∃ l, (∀ c ∈ l, c.isErr = false) ∧ m'.chan = m.chan ++ l := by
  unfold addrStep at h
  repeat split at h
  all_goals cases h
  all_goals first
    | (refine ⟨[], ?_, ?_⟩ <;>
        (simp_all [ChanMsg.isErr, Mach.notify, Mach.set_state]; done))
    | (refine ⟨[.ok (.Ctrl (.Received m.rb.get_size sr2.tra)),
        .ok (.Notif (.Addr sr2.tra sr2.gencall))], ?_, ?_⟩ <;>
        (simp_all [ChanMsg.isErr, Mach.notify, Mach.set_state]; done))
    | (refine ⟨[.ok (.Notif (.Addr sr2.tra sr2.gencall))], ?_, ?_⟩ <;>
        (simp_all [ChanMsg.isErr, Mach.notify, Mach.set_state]; done))

theorem addrStep_chan_err (sr1 : Sr1) (sr2 : Sr2) (m mf : Mach TX RX)
    (h : addrStep sr1 sr2 m = .error mf) :
    ∃ r, mf.chan = m.chan ++ [.error r] := by
  unfold addrStep at h
  repeat split at h
  all_goals cases h
  all_goals exact ⟨_, rfl⟩

theorem rxneStep_chan_ok (sr1 : Sr1) (m m' : Mach TX RX)
    (h : rxneStep sr1 m = .ok m') :
    ∃ l, (∀ c ∈ l, c.isErr = false) ∧ m'.chan = m.chan ++ l := by
  unfold rxneStep at h
  rcases hw : m.rb.write_byte m.drIn with _ | rb' <;> rw [hw] at h <;>
    repeat split at h
  all_goals cases h
  all_goals refine ⟨[], ?_, ?_⟩
  all_goals simp

theorem rxneStep_chan_err (sr1 : Sr1) (m mf : Mach TX RX)
    (h : rxneStep sr1 m = .error mf) :
    ∃ r, mf.chan = m.chan ++ [.error r] := by
  unfold rxneStep at h
  rcases hw : m.rb.write_byte m.drIn with _ | rb' <;> rw [hw] at h <;>
    repeat split at h
  all_goals cases h
  all_goals exact ⟨_, rfl⟩

theorem txeStep_chan_ok (sr1 : Sr1) (m m' : Mach TX RX)
    (h : txeStep sr1 m = .ok m') :
    ∃ l, (∀ c ∈ l, c.isErr = false) ∧ m'.chan = m.chan ++ l := by
  unfold txeStep at h
  split at h
  · split at h
    · cases h
    · cases h
    · cases h
    all_goals
      by_cases hc : (m.get_state = State.TxInitial ∨ sr1.btf = true)
    all_goals first
      | rw [if_pos hc] at h
      | rw [if_neg hc] at h
    all_goals rcases hn : m.sb.next with _ | ⟨b, sb'⟩
    all_goals try rw [hn] at h
    all_goals cases h
    all_goals first
      | (refine ⟨[], ?_, ?_⟩ <;>
          (simp_all [ChanMsg.isErr, Mach.notify, Mach.lock_tx,
            Mach.set_state]; done))
      | (refine ⟨[.ok (.Ctrl (.TxEmpty
          (decide (m.get_state = State.TxInitial))))], ?_, ?_⟩ <;>
          (simp_all [ChanMsg.isErr, Mach.notify, Mach.lock_tx,
            Mach.set_state]; done))
  · cases h
    exact ⟨[], by simp, by simp⟩

theorem txeStep_chan_err (sr1 : Sr1) (m mf : Mach TX RX)
    (h : txeStep sr1 m = .error mf) :
    ∃ r, mf.chan = m.chan ++ [.error r] := by
  unfold txeStep at h
  split at h
  · split at h
    · cases h
      exact ⟨_, rfl⟩
    · cases h
      exact ⟨_, rfl⟩
    · cases h
      exact ⟨_, rfl⟩
    all_goals
      by_cases hc : (m.get_state = State.TxInitial ∨ sr1.btf = true)
    all_goals first
      | rw [if_pos hc] at h
      | rw [if_neg hc] at h
    all_goals rcases hn : m.sb.next with _ | ⟨b, sb'⟩
    all_goals try rw [hn] at h
    all_goals cases h
  · cases h

theorem stopStep_chan_ok (sr1 : Sr1) (m m' : Mach TX RX)
    (h : stopStep sr1 m = .ok m') :
    ∃ l, (∀ c ∈ l, c.isErr = false) ∧ m'.chan = m.chan ++ l := by
  unfold stopStep at h
  split at h
  · rcases hs : m.get_state with _ | _ | _ | _ | _
    all_goals
      (have hs' : ({ m with pe := true } : Mach TX RX).get_state = _ := hs
       simp only [hs'] at h)
    all_goals repeat split at h
    all_goals cases h
    all_goals first
      | (refine ⟨[], ?_, ?_⟩ <;>
          (simp_all [ChanMsg.isErr, Mach.notify, Mach.set_state]; done))
      | (refine ⟨[.ok (.Ctrl (.Received m.rb.get_size false)),
          .ok (.Notif .Stop)], ?_, ?_⟩ <;>
          (simp_all [ChanMsg.isErr, Mach.notify, Mach.set_state]; done))
      | (refine ⟨[.ok (.Ctrl (.Received m.rb.get_size false))], ?_, ?_⟩ <;>
          (simp_all [ChanMsg.isErr, Mach.notify, Mach.set_state]; done))
      | (refine ⟨[.ok (.Notif .Stop)], ?_, ?_⟩ <;>
          (simp_all [ChanMsg.isErr, Mach.notify, Mach.set_state]; done))
  · cases h
    exact ⟨[], by simp, by simp⟩

theorem stopStep_chan_err (sr1 : Sr1) (m mf : Mach TX RX)
    (h : stopStep sr1 m = .error mf) :
    ∃ r, mf.chan = m.chan ++ [.error r] := by
  unfold stopStep at h
  split at h
  · rcases hs : m.get_state with _ | _ | _ | _ | _
    all_goals
      (have hs' : ({ m with pe := true } : Mach TX RX).get_state = _ := hs
       simp only [hs'] at h)
    all_goals repeat split at h
    all_goals cases h
    all_goals exact ⟨_, rfl⟩
  · cases h

/-- Every event-ISR invocation appends to the channel a block of `Ok`
messages, optionally terminated by a single `Err` after which nothing
more is appended. -/
theorem handle_event_chan_shape (sr2 : Sr2) (m : Mach TX RX) :
    ∃ l, (∀ c ∈ l, c.isErr = false) ∧
      ((handle_event_interrupt sr2 m).chan = m.chan ++ l ∨
        ∃ r, (handle_event_interrupt sr2 m).chan =
          m.chan ++ l ++ [.error r]) := by
  have hunfold : handle_event_interrupt sr2 m =
      (if m.sr1.txe = true ∧ m.sr1.rxne = true then
        m.fail (.Protocol .RxneAndTxne)
      else
        match addrStep m.sr1 sr2 m with
        | .error mf => mf
        | .ok m1 =>
          match rxneStep m.sr1 m1 with
          | .error mf => mf
          | .ok m2 =>
            match txeStep m.sr1 m2 with
            | .error mf => mf
            | .ok m3 =>
              match stopStep m.sr1 m3 with
              | .error mf => mf
              | .ok m4 => m4) := rfl
  rw [hunfold]
  by_cases hg : (m.sr1.txe = true ∧ m.sr1.rxne = true)
  · rw [if_pos hg]
    exact ⟨[], by simp,
      Or.inr ⟨.Protocol .RxneAndTxne, by simp [Mach.fail]⟩⟩
  · rw [if_neg hg]
    rcases ha : addrStep m.sr1 sr2 m with mf | m1
    · obtain ⟨r, hc⟩ := addrStep_chan_err m.sr1 sr2 m mf ha
      exact ⟨[], by simp, Or.inr ⟨r, by simp [ha, hc]⟩⟩
    · obtain ⟨l1, h1all, h1⟩ := addrStep_chan_ok m.sr1 sr2 m m1 ha
      rcases hr : rxneStep m.sr1 m1 with mf | m2
      · obtain ⟨r, hc⟩ := rxneStep_chan_err m.sr1 m1 mf hr
        exact ⟨l1, h1all, Or.inr ⟨r, by simp [ha, hr, hc, h1]⟩⟩
      · obtain ⟨l2, h2all, h2⟩ := rxneStep_chan_ok m.sr1 m1 m2 hr
        rcases ht : txeStep m.sr1 m2 with mf | m3
        · obtain ⟨r, hc⟩ := txeStep_chan_err m.sr1 m2 mf ht
          refine ⟨l1 ++ l2, ?_,
            Or.inr ⟨r, by simp [ha, hr, ht, hc, h2, h1]⟩⟩
          intro c hc'
          rcases List.mem_append.mp hc' with h | h
          · exact h1all c h
          · exact h2all c h
        · obtain ⟨l3, h3all, h3⟩ := txeStep_chan_ok m.sr1 m2 m3 ht
          rcases hs : stopStep m.sr1 m3 with mf | m4
          · obtain ⟨r, hc⟩ := stopStep_chan_err m.sr1 m3 mf hs
            refine ⟨l1 ++ l2 ++ l3, ?_,
              Or.inr ⟨r, by simp [ha, hr, ht, hs, hc, h3, h2, h1]⟩⟩
            intro c hc'
            rcases List.mem_append.mp hc' with h | h
            · rcases List.mem_append.mp h with h' | h'
              · exact h1all c h'
              · exact h2all c h'
            · exact h3all c h
          · obtain ⟨l4, h4all, h4⟩ := stopStep_chan_ok m.sr1 m3 m4 hs
            refine ⟨l1 ++ l2 ++ l3 ++ l4, ?_,
              Or.inl (by simp [ha, hr, ht, hs, h4, h3, h2, h1])⟩
            intro c hc'
            rcases List.mem_append.mp hc' with h | h
            · rcases List.mem_append.mp h with h' | h'
              · rcases List.mem_append.mp h' with h'' | h''
                · exact h1all c h''
                · exact h2all c h''
              · exact h3all c h'
            · exact h4all c h

theorem errFlagStep_count (flag : Bool) (clr : Sr1 → Sr1) (e : I2CError)
    (m : Mach TX RX) :
    errCount (errFlagStep flag clr (some e) m).chan =
      errCount m.chan + flag.toNat := by
  unfold errFlagStep errCount
  cases flag <;> simp [Mach.fail, ChanMsg.isErr]

theorem errFlagStep_none_chan (flag : Bool) (clr : Sr1 → Sr1)
    (m : Mach TX RX) :
    (errFlagStep flag clr none m).chan = m.chan := by
  unfold errFlagStep
  cases flag <;> simp

/-- C4 counterexample: an error-ISR invocation with both ARLO and OVR set
(AF clear, state `Idle`) writes TWO `Err` messages into the channel — the
`handle_errors!` chain clears and reports each set flag without returning
after the first `fail`, contradicting the claimed single-`Err` policy. -/
theorem single_err_policy_cex :
    (handle_error_interrupt
        (baseMach 1 1 { sr1Clear with arlo := true, ovr := true }
          State.Idle)).chan =
      [.error (.I2C .ArbitrationLoss), .error (.I2C .Overrun)] ∧
    ¬ errCount (handle_error_interrupt
        (baseMach 1 1 { sr1Clear with arlo := true, ovr := true }
          State.Idle)).chan ≤ 1 := by decide

/-- C4 (amended): the EVENT handler writes at most one `Err` per
invocation and stops decoding once it fails (every message before the
last is an `Ok`).  In the ERROR handler the AF-branch failure also
returns early (a lone `Err`), but the subsequent error-flag chain does
NOT stop after a fail: it writes one `Err` for every set flag among
`arlo`, `ovr`, `pecerr`, `timeout`, `alert`, so a single error-ISR
invocation can write up to five `Err`s. -/
theorem single_err_policy_amended :
    (∀ (TX RX : Nat) (sr2 : Sr2) (m : Mach TX RX), m.chan = [] →
      ((handle_event_interrupt sr2 m).chan.dropLast).all
        (fun c => !c.isErr) = true ∧
      errCount (handle_event_interrupt sr2 m).chan ≤ 1) ∧
    (∀ (TX RX : Nat) (m : Mach TX RX), m.chan = [] → m.sr1.af = true →
      ¬(m.get_state = State.TxInitial ∨ m.get_state = State.TxRepeated) →
      (handle_error_interrupt m).chan =
        [.error (.Protocol .NackWhileNotTranseiving)]) ∧
    (∀ (TX RX : Nat) (m : Mach TX RX), m.chan = [] →
      (m.sr1.af = false ∨ m.get_state = State.TxInitial ∨
        m.get_state = State.TxRepeated) →
      errCount (handle_error_interrupt m).chan =
        m.sr1.arlo.toNat + m.sr1.ovr.toNat + m.sr1.pecerr.toNat +
          m.sr1.timeout.toNat + m.sr1.alert.toNat) := by
  refine ⟨?_, ?_, ?_⟩
  · intro TX RX sr2 m hchan
    obtain ⟨l, hall, hsh⟩ := handle_event_chan_shape sr2 m
    have hcnt : errCount l = 0 := by
      unfold errCount
      rw [List.countP_eq_zero]
      intro c hc
      simp [hall c hc]
    rcases hsh with he | ⟨r, he⟩
    · rw [he, hchan, List.nil_append]
      constructor
      · rw [List.all_eq_true]
        intro c hc
        have := hall c ((List.dropLast_sublist l).subset hc)
        simp [this]
      · unfold errCount at hcnt ⊢
        rw [hcnt]
        omega
    · rw [he, hchan, List.nil_append]
      constructor
      · rw [List.dropLast_concat, List.all_eq_true]
        intro c hc
        simp [hall c hc]
      · unfold errCount at hcnt ⊢
        rw [List.countP_append, hcnt]
        simp [ChanMsg.isErr]
  · intro TX RX m hchan haf hnTx
    have h1 : ¬ m.get_state = State.TxInitial := fun h => hnTx (Or.inl h)
    have h2 : ¬ m.get_state = State.TxRepeated := fun h => hnTx (Or.inr h)
    rcases hs : m.holder.state <;>
      first
        | exact absurd hs h1
        | exact absurd hs h2
        | simp [handle_error_interrupt, afStep, haf, hs, hchan, Mach.fail,
            Mach.get_state, StateHolder.get_state]
  · intro TX RX m hchan hcase
    have hshape : ∃ m1, afStep m.sr1 m = .ok m1 ∧ errCount m1.chan = 0 := by
      by_cases haf : m.sr1.af = true
      · have hTx : m.get_state = State.TxInitial ∨
            m.get_state = State.TxRepeated := by
          rcases hcase with h | h | h
          · rw [haf] at h
            cases h
          · exact Or.inl h
          · exact Or.inr h
        rcases hTx with h | h <;>
        · have hs' : ({ m with sr1 := { m.sr1 with af := false } } :
              Mach TX RX).get_state = _ := h
          rcases hres : afStep m.sr1 m with mf | m1
          · exfalso
            unfold afStep at hres
            rw [if_pos haf] at hres
            simp only [hs'] at hres
            cases hres
          · have hcnt : errCount m1.chan = 0 := by
              have hres' := hres
              unfold afStep at hres'
              rw [if_pos haf] at hres'
              simp only [hs'] at hres'
              injection hres' with hres'
              rw [← hres']
              simp [errCount, Mach.notify, Mach.set_state, Mach.reset_txbuf,
                hchan, ChanMsg.isErr]
            exact ⟨m1, rfl, hcnt⟩
      · have haf' : m.sr1.af = false := by
          cases hb : m.sr1.af
          · rfl
          · exact absurd hb haf
        refine ⟨m, ?_, by simp [errCount, hchan]⟩
        unfold afStep
        rw [if_neg (by simp [haf'])]
    obtain ⟨m1, hok, hcnt⟩ := hshape
    have hrew : handle_error_interrupt m =
        errFlagStep m.sr1.alert (fun s => { s with alert := false })
          (some .SmBusAlert)
          (errFlagStep m.sr1.timeout (fun s => { s with timeout := false })
            (some .Timeout)
            (errFlagStep m.sr1.pecerr (fun s => { s with pecerr := false })
              (some .PecError)
              (errFlagStep m.sr1.ovr (fun s => { s with ovr := false })
                (some .Overrun)
                (errFlagStep m.sr1.arlo (fun s => { s with arlo := false })
                  (some .ArbitrationLoss)
                  (errFlagStep m.sr1.berr (fun s => { s with berr := false })
                    none m1))))) := by
      simp only [handle_error_interrupt]
      rw [hok]
    rw [hrew, errFlagStep_count, errFlagStep_count, errFlagStep_count,
      errFlagStep_count, errFlagStep_count]
    have hberr : (errFlagStep m.sr1.berr
        (fun s => { s with berr := false }) none m1).chan = m1.chan :=
      errFlagStep_none_chan _ _ _
    unfold errCount
    rw [hberr]
    unfold errCount at hcnt
    rw [hcnt]
    omega

/-- Witness for C4 (amended): the three clauses applied at small concrete
machines — an idle event ISR, an AF-failure error ISR, and an error ISR
with only ARLO set. -/
theorem single_err_policy_amended_witness :
    (((handle_event_interrupt ⟨false, false⟩
        (baseMach 1 1 sr1Clear State.Idle)).chan.dropLast).all
        (fun c => !c.isErr) = true ∧
      errCount (handle_event_interrupt ⟨false, false⟩
        (baseMach 1 1 sr1Clear State.Idle)).chan ≤ 1) ∧
    ((handle_error_interrupt
        (baseMach 1 1 { sr1Clear with af := true } State.Idle)).chan =
      [.error (.Protocol .NackWhileNotTranseiving)]) ∧
    errCount (handle_error_interrupt
        (baseMach 1 1 { sr1Clear with arlo := true } State.Idle)).chan =
      (baseMach 1 1 { sr1Clear with arlo := true }
        State.Idle).sr1.arlo.toNat +
      (baseMach 1 1 { sr1Clear with arlo := true }
        State.Idle).sr1.ovr.toNat +
      (baseMach 1 1 { sr1Clear with arlo := true }
        State.Idle).sr1.pecerr.toNat +
      (baseMach 1 1 { sr1Clear with arlo := true }
        State.Idle).sr1.timeout.toNat +
      (baseMach 1 1 { sr1Clear with arlo := true }
        State.Idle).sr1.alert.toNat :=
  ⟨single_err_policy_amended.1 1 1 ⟨false, false⟩
      (baseMach 1 1 sr1Clear State.Idle) rfl,
    single_err_policy_amended.2.1 1 1
      (baseMach 1 1 { sr1Clear with af := true } State.Idle) rfl rfl
      (by decide),
    single_err_policy_amended.2.2 1 1
      (baseMach 1 1 { sr1Clear with arlo := true } State.Idle) rfl
      (Or.inl rfl)⟩

end I2CSlaveModel
